import Mathlib

/-!
Verification of the `runCmd` command-group runner (`src/main.go`).

The development shallowly embeds the program:

* `parseConfig`, `mergeConfig`, `goAtoi` and the concurrency resolution are
  translated as pure functions; Go maps become functions `String → Option _`
  (a Go map's content after a sequence of inserts is exactly that function,
  independent of iteration order).
* `runCmdsInDir` becomes `runActions`: the sequence of observable actions
  (semaphore acquire via `worker <- struct{}{}`, printed lines, the single
  process spawn, and the deferred release `<-worker`) the goroutine performs,
  parameterised by the behaviour of the spawned child process.
* The fan-out in `main` becomes a small-step interleaving semantics
  (`EngStep` / `EngReach`) over one action program per target directory,
  where an `acquire` step is enabled only while fewer than `C` tasks hold a
  slot — the semantics of a buffered channel of capacity `C`.
-/

namespace RunCmd

/-! ## Go string primitives, modelled on `List Char` so that everything
    reduces in the kernel. -/

/-- ASCII whitespace recognised by `strings.TrimSpace` (the model restricts
Go's `unicode.IsSpace` to its ASCII part). -/
def goIsSpace (c : Char) : Bool :=
  c = ' ' || c = '\t' || c = '\n' || c = '\x0b' || c = '\x0c' || c = '\r'

/-- Drop characters satisfying `p` from both ends of a character list, the
semantics of Go's `strings.Trim` family. -/
def trimChars (p : Char → Bool) (l : List Char) : List Char :=
  ((l.dropWhile p).reverse.dropWhile p).reverse

/-- Model of `strings.TrimSpace`. -/
def goTrimSpace (s : String) : String :=
  (trimChars goIsSpace s.data).asString

/-- Model of `strings.Trim(s, "[]")` from `parseConfig` line 42. -/
def goTrimBrackets (s : String) : String :=
  (trimChars (fun c => c = '[' || c = ']') s.data).asString

/-- Model of `strings.HasPrefix`. -/
def strHasPre (s p : String) : Bool :=
  p.data.isPrefixOf s.data

/-- Model of `strings.HasSuffix`. -/
def strHasSuf (s p : String) : Bool :=
  p.data.reverse.isPrefixOf s.data.reverse

/-- Split a character list at the first `'='`, the semantics of
`strings.SplitN(line, "=", 2)`: `none` when no `'='` occurs (Go then returns
a one-element slice and `parseConfig` skips the line). -/
def splitFirstEq : List Char → Option (List Char × List Char)
  | [] => none
  | c :: rest =>
    if c = '=' then some ([], rest)
    else
      match splitFirstEq rest with
      | some (a, b) => some (c :: a, b)
      | none => none

/-- Split a character list into newline-separated chunks; `acc` holds the
(reversed) current chunk.  This is the token stream `bufio.Scanner` yields
over the config text (the scanner omits a final empty token, which
`parseConfig` would skip anyway as a blank line). -/
def goLinesAux : List Char → List Char → List (List Char)
  | [], acc => [acc.reverse]
  | c :: rest, acc =>
    if c = '\n' then acc.reverse :: goLinesAux rest []
    else goLinesAux rest (c :: acc)

/-- The lines of a configuration text. -/
def goLines (s : String) : List String :=
  (goLinesAux s.data []).map List.asString

/-- Model of `strings.Join(cmds, "\n")`. -/
def goJoin (sep : String) : List String → String
  | [] => ""
  | [x] => x
  | x :: y :: ys => x ++ sep ++ goJoin sep (y :: ys)

/-! ## Configuration (`type Config`, `parseConfig`, `mergeConfig`) -/

/-- The `Config` struct: `Settings map[string]string` and
`Groups map[string][]string`, each map denoted by its lookup function. -/
structure Config where
  Settings : String → Option String
  Groups : String → Option (List String)

/-- Point update of a map denotation: the effect of `m[k] = v`. -/
def setFun {α : Type} (m : String → Option α) (k : String) (v : α) :
    String → Option α :=
  fun x => if x = k then some v else m x

/-- Parser state while scanning the config: the partially built maps plus
`currentGroup` (initially `""`). -/
structure PState where
  settings : String → Option String
  groups : String → Option (List String)
  currentGroup : String

/-- One iteration of the scanner loop of `parseConfig` (lines 34–60 of
`main.go`): trim the line; skip blanks and `#` comments; a `[...]` line
selects the current group and, unless it is `settings`, resets that group to
the empty slice; under `[settings]` a `k=v` line records a setting; under any
other non-empty group the trimmed line is appended to the group. -/
def parseStep (s : PState) (raw : String) : PState :=
  let line := goTrimSpace raw
  if line = "" ∨ strHasPre line "#" = true then s
  else if strHasPre line "[" = true ∧ strHasSuf line "]" = true then
    let g := goTrimBrackets line
    if g = "settings" then { s with currentGroup := g }
    else { s with groups := setFun s.groups g [], currentGroup := g }
  else if s.currentGroup = "settings" then
    match splitFirstEq line.data with
    | some (k, v) =>
      let key := (trimChars goIsSpace k).asString
      let val := (trimChars goIsSpace v).asString
      { s with settings := setFun s.settings key val }
    | none => s
  else if s.currentGroup = "" then s
  else
    let appended := ((s.groups s.currentGroup).getD []) ++ [line]
    { s with groups := setFun s.groups s.currentGroup appended }

/-- Folding the scanner loop over a list of lines, from the empty state. -/
def parseLinesL (ls : List String) : PState :=
  ls.foldl parseStep ⟨fun _ => none, fun _ => none, ""⟩

/-- `parseConfig`: scan the text line by line. -/
def parseConfig (content : String) : Config :=
  let st := parseLinesL (goLines content)
  ⟨st.settings, st.groups⟩

/-- `mergeConfig` (lines 66–89): build fresh maps, insert every base entry,
then insert every override entry.  Per key the final map holds the override's
value when the override has the key and the base's value otherwise (Go map
iteration order cannot affect this, and the fresh maps plus the
`append([]string{}, cmds...)` slice copies leave `base` untouched). -/
def mergeConfig (base override : Config) : Config where
  Settings := fun k =>
    match override.Settings k with
    | some v => some v
    | none => base.Settings k
  Groups := fun g =>
    match override.Groups g with
    | some cmds => some cmds
    | none => base.Groups g

/-! ## Concurrency setting (`strconv.Atoi` and lines 150–156) -/

/-- Decimal value of a digit list. -/
def digitsToNat (ds : List Char) : Nat :=
  ds.foldl (fun a c => a * 10 + (c.toNat - 48)) 0

/-- Model of `strconv.Atoi`: optional sign, then one or more ASCII digits,
and the value must fit in a 64-bit `int` (Go returns `ErrRange`, hence a
non-nil error, outside that range). -/
def goAtoi (s : String) : Option Int :=
  match s.data with
  | [] => none
  | c :: rest =>
    let signDigits : Bool × List Char :=
      if c = '-' then (true, rest)
      else if c = '+' then (false, rest)
      else (false, c :: rest)
    match signDigits with
    | (neg, ds) =>
      if ds = [] then none
      else if ds.all (fun d => '0' ≤ d && d ≤ '9') then
        let n := digitsToNat ds
        if neg then
          if n ≤ 2 ^ 63 then some (-(n : Int)) else none
        else
          if n ≤ 2 ^ 63 - 1 then some (n : Int) else none
      else none

/-- Lines 150–156 of `main`: start from 3; when `Settings["concurrency"]`
exists, parses, and is positive, use the parsed value. -/
def resolveConcurrency (settings : String → Option String) : Int :=
  match settings "concurrency" with
  | none => 3
  | some v =>
    match goAtoi v with
    | some n => if 0 < n then n else 3
    | none => 3

/-! ## The execution engine (`runCmdsInDir`, lines 92–122) -/

/-- Observable behaviour of the child process a task spawns: `c.Start()`
fails with an error message, or the process runs emitting `out` on the
merged stdout/stderr and `c.Wait()` succeeds, or it runs and `c.Wait()`
reports an error (non-zero exit or signal). -/
inductive TaskBehavior where
  | startFail (msg : String)
  | runOk (out : List String)
  | runErr (out : List String) (msg : String)
deriving DecidableEq, Repr

/-- Whether `c.Start()` succeeded. -/
def TaskBehavior.starts : TaskBehavior → Bool
  | .startFail _ => false
  | .runOk _ => true
  | .runErr _ _ => true

/-- A process invocation as configured at lines 100–101: program, argument
vector, working directory. -/
structure SpawnSpec where
  prog : String
  args : List String
  workDir : String
deriving DecidableEq, Repr

/-- The one `exec.Command("sh", "-c", script)` with `c.Dir = dir` a task
builds, where `script` joins the group's commands with newlines. -/
def spawnSpecOf (dir : String) (cmds : List String) : SpawnSpec :=
  { prog := "sh", args := ["-c", goJoin "\n" cmds], workDir := dir }

/-- One printed log line of the engine, by provenance. -/
inductive Line where
  | startBanner (dir : String)
  | tagged (dir : String) (text : String)
  | startFailLine (dir : String) (msg : String)
  | runErrLine (dir : String) (msg : String)
  | completionBanner (dir : String)
deriving DecidableEq, Repr

/-- The exact text each `fmt.Printf` of `runCmdsInDir` produces. -/
def Line.render : Line → String
  | .startBanner dir => ">>> 开始在目录 [" ++ dir ++ "] 执行命令...\n"
  | .tagged dir text => "[" ++ dir ++ "] " ++ text ++ "\n"
  | .startFailLine dir msg => "[" ++ dir ++ "] 启动失败: " ++ msg ++ "\n"
  | .runErrLine dir msg => "[" ++ dir ++ "] 执行错误: " ++ msg ++ "\n"
  | .completionBanner dir => "<<< 完成目录 [" ++ dir ++ "] 的命令执行\n\n"

/-- An observable action of one task: send into the `worker` channel, print a
line, spawn the child process, or receive from the `worker` channel (the
deferred release). -/
inductive Action where
  | acquire
  | emit (l : Line)
  | spawn (spec : SpawnSpec)
  | release
deriving DecidableEq, Repr

/-- The printed lines and error branch of a task after `c.Start()`:
start failure prints only the failure line (the early `return` at line 109);
otherwise the scanner loop tags each output line, a failing `c.Wait()` adds
the runtime-error line, and line 121 prints the completion banner. -/
def bodyActions (dir : String) (b : TaskBehavior) : List Action :=
  match b with
  | .startFail msg => [.emit (.startFailLine dir msg)]
  | .runOk out =>
    out.map (fun l => Action.emit (.tagged dir l)) ++ [.emit (.completionBanner dir)]
  | .runErr out msg =>
    out.map (fun l => Action.emit (.tagged dir l)) ++
      [.emit (.runErrLine dir msg), .emit (.completionBanner dir)]

/-- The action sequence of `runCmdsInDir dir cmds`: acquire the slot
(line 94), print the start banner (line 97), attempt the spawn (lines
99–107), run the body, and release the slot via the deferred receive
(line 95) on every exit path. -/
def runActions (dir : String) (cmds : List String) (b : TaskBehavior) : List Action :=
  .acquire :: .emit (.startBanner dir) :: .spawn (spawnSpecOf dir cmds) ::
    (bodyActions dir b ++ [.release])

/-- The emitted line of an action, if any. -/
def Action.emitted : Action → Option Line
  | .emit l => some l
  | _ => none

/-- The spawned process of an action, if any. -/
def Action.spawned : Action → Option SpawnSpec
  | .spawn s => some s
  | _ => none

/-- The log one task prints, in order. -/
def runLog (dir : String) (cmds : List String) (b : TaskBehavior) : List Line :=
  (runActions dir cmds b).filterMap Action.emitted

/-! ## Interleaving semantics of the fan-out (lines 159–166) -/

/-- A task in flight: its action program and its program counter. -/
abbrev TaskSt := List Action × Nat

/-- Is the action the channel send `worker <- struct{}{}`? -/
def Action.isAcq : Action → Bool
  | .acquire => true
  | _ => false

/-- Is the action the deferred channel receive `<-worker`? -/
def Action.isRel : Action → Bool
  | .release => true
  | _ => false

/-- How many units of the `worker` channel's buffer a task holds: sends into
the channel so far minus receives so far. -/
def heldBy (t : TaskSt) : Nat :=
  ((t.1.take t.2).countP Action.isAcq) - ((t.1.take t.2).countP Action.isRel)

/-- Occupancy of the `worker` channel: total slots currently held. -/
def heldCount (s : List TaskSt) : Nat :=
  (s.map heldBy).sum

/-- One scheduler step: some task executes its next action.  A send into the
buffered channel (`acquire`) is enabled only while the occupancy is below the
capacity `C`; every other action is always enabled. -/
inductive EngStep (C : Nat) : List TaskSt → List TaskSt → Prop where
  | mk (pre post : List TaskSt) (prog : List Action) (pc : Nat)
      (hlt : pc < prog.length)
      (hacq : prog[pc]? = some Action.acquire →
        heldCount (pre ++ (prog, pc) :: post) < C) :
      EngStep C (pre ++ (prog, pc) :: post) (pre ++ (prog, pc + 1) :: post)

/-- States reachable by the engine started on the given task programs (one
goroutine per target directory, all at their first action). -/
inductive EngReach (C : Nat) (progs : List (List Action)) : List TaskSt → Prop where
  | init : EngReach C progs (progs.map (fun p => (p, 0)))
  | next {s t : List TaskSt} : EngReach C progs s → EngStep C s t → EngReach C progs t

/-! ## The driver (`main`, lines 124–167) -/

/-- Outcome of a `main` invocation.  `main` returns normally on every path
(there is no `os.Exit` or panic in the program), so each constructor
corresponds to a normal, exit-status-0 termination. -/
inductive MainRes where
  | usage (msg : String)
  | groupMissing (msg : String)
  | completed (concurrency : Int) (taskLogs : List (List Line))
deriving DecidableEq, Repr

/-- Number of tasks `main` dispatched (goroutines started at line 164). -/
def MainRes.dispatched : MainRes → Nat
  | .completed _ logs => logs.length
  | _ => 0

/-- Process exit status: 0 on every path, since `main` only ever returns. -/
def MainRes.exitCode : MainRes → Nat
  | .usage _ => 0
  | .groupMissing _ => 0
  | .completed _ _ => 0

/-- The configuration `main` runs with: the parsed embedded `config.txt`,
merged under the parsed external `config.txt` when that file exists
(lines 133–142). -/
def resolvedConfig (embeddedText : String) (externalText : Option String) : Config :=
  let base := parseConfig embeddedText
  match externalText with
  | some ext => mergeConfig base (parseConfig ext)
  | none => base

/-- `main`, as a function of the argument vector (`os.Args`, program name
included), the two configuration texts, and the behaviour of the child
process in each directory.  With fewer than 3 arguments it prints usage and
returns; with an unknown group it prints the not-found message and returns;
otherwise it dispatches one task per directory and waits for them all. -/
def mainRun (argv : List String) (embeddedText : String)
    (externalText : Option String) (behave : String → TaskBehavior) : MainRes :=
  match argv with
  | _ :: group :: d1 :: ds =>
    let cfg := resolvedConfig embeddedText externalText
    match cfg.Groups group with
    | none => .groupMissing ("未找到组 [" ++ group ++ "] 的命令，请检查配置")
    | some cmds =>
      .completed (resolveConcurrency cfg.Settings)
        ((d1 :: ds).map (fun d => runLog d cmds (behave d)))
  | _ => .usage "用法: ./runCmd <group> <dir1> <dir2> ..."

/-! ## Further observation functions used by the statements -/

/-- Is this line the completion banner of directory `dir`? -/
def Line.isCompletionFor (dir : String) : Line → Bool
  | .completionBanner d => d == dir
  | _ => false

/-- Is this line a completion banner at all? -/
def Line.isCompletion : Line → Bool
  | .completionBanner _ => true
  | _ => false

/-- Example base configuration for the merge witness: settings
`keep → 1`, `both → 2`, group `g → [a, b]`. -/
def mergeBaseEx : Config where
  Settings := fun k => if k = "keep" then some "1" else if k = "both" then some "2" else none
  Groups := fun x => if x = "g" then some ["a", "b"] else none

/-- Example override configuration for the merge witness: setting
`both → 9`, group `g → [x]`. -/
def mergeOverrideEx : Config where
  Settings := fun k => if k = "both" then some "9" else none
  Groups := fun x => if x = "g" then some ["x"] else none

/-! ## Helper lemmas -/

lemma filterMap_spawned_map_tagged (dir : String) (out : List String) :
    (out.map (fun l => Action.emit (Line.tagged dir l))).filterMap Action.spawned = [] := by
  induction out with
  | nil => rfl
  | cons x xs ih => simp [Action.spawned]

lemma filterMap_emitted_comp_tagged (dir : String) (out : List String) :
    List.filterMap (Action.emitted ∘ fun l => Action.emit (Line.tagged dir l)) out
      = out.map (fun l => Line.tagged dir l) := by
  induction out with
  | nil => rfl
  | cons x xs ih =>
    simp only [List.filterMap_cons, Function.comp_apply, Action.emitted, List.map_cons, ih]

/-- Closed form of a task's log, by behaviour. -/
lemma runLog_eq (dir : String) (cmds : List String) (b : TaskBehavior) :
    runLog dir cmds b = Line.startBanner dir ::
      (match b with
       | .startFail msg => [Line.startFailLine dir msg]
       | .runOk out => out.map (fun l => Line.tagged dir l) ++ [Line.completionBanner dir]
       | .runErr out msg => out.map (fun l => Line.tagged dir l) ++
           [Line.runErrLine dir msg, Line.completionBanner dir]) := by
  cases b <;>
    simp [runLog, runActions, bodyActions, Action.emitted, List.filterMap_cons,
      List.filterMap_append, filterMap_emitted_comp_tagged]

lemma countP_map_tagged_eq_zero (dir : String) (p : Line → Bool)
    (hp : ∀ l, p (Line.tagged dir l) = false) (out : List String) :
    (out.map (fun l => Line.tagged dir l)).countP p = 0 := by
  induction out with
  | nil => rfl
  | cons x xs ih => simp [List.countP_cons, hp, ih]

lemma heldCount_append (a b : List TaskSt) :
    heldCount (a ++ b) = heldCount a + heldCount b := by
  simp [heldCount]

lemma heldCount_cons (x : TaskSt) (s : List TaskSt) :
    heldCount (x :: s) = heldBy x + heldCount s := by
  simp [heldCount]

lemma heldCount_init (progs : List (List Action)) :
    heldCount (progs.map (fun p => (p, 0))) = 0 := by
  induction progs with
  | nil => rfl
  | cons p ps ih => simp [heldCount_cons, ih, heldBy]

/-- Executing one action raises a task's channel occupancy by at most one,
and only when that action is the send. -/
lemma heldBy_succ (prog : List Action) (pc : Nat) (h : pc < prog.length) :
    heldBy (prog, pc + 1)
      ≤ heldBy (prog, pc) + (if prog[pc]? = some Action.acquire then 1 else 0) := by
  unfold heldBy
  simp only [List.take_succ, List.getElem?_eq_getElem h, Option.toList_some,
    List.countP_append]
  rcases hA : prog[pc] with _ | l | sp | _ <;>
    simp [List.countP_cons, Action.isAcq, Action.isRel] <;> omega

/-- The channel-capacity guard preserves the occupancy bound. -/
lemma heldCount_le_of_step {C : Nat} {s t : List TaskSt} (h : EngStep C s t)
    (hs : heldCount s ≤ C) : heldCount t ≤ C := by
  rcases h with ⟨pre, post, prog, pc, hlt, hacq⟩
  rw [heldCount_append, heldCount_cons] at hs ⊢
  have hb := heldBy_succ prog pc hlt
  by_cases hA : prog[pc]? = some Action.acquire
  · have hlt2 := hacq hA
    rw [heldCount_append, heldCount_cons] at hlt2
    rw [if_pos hA] at hb
    omega
  · rw [if_neg hA] at hb
    omega

/-- Channel occupancy never exceeds the capacity in any reachable state. -/
lemma engine_occupancy_bounded {C : Nat} {progs : List (List Action)}
    {s : List TaskSt} (h : EngReach C progs s) : heldCount s ≤ C := by
  induction h with
  | init => rw [heldCount_init]; exact Nat.zero_le C
  | next _ hstep ih => exact heldCount_le_of_step hstep ih

lemma countP_map_emit_zero (q : Action → Bool)
    (hq : ∀ l : Line, q (Action.emit l) = false) (f : String → Line)
    (out : List String) :
    (out.map (fun l => Action.emit (f l))).countP q = 0 := by
  induction out with
  | nil => rfl
  | cons x xs ih => simp [List.countP_cons, hq, ih]

lemma countP_isAcq_runActions (dir : String) (cmds : List String) (b : TaskBehavior) :
    (runActions dir cmds b).countP Action.isAcq = 1 := by
  cases b <;>
    simp [runActions, bodyActions, List.countP_cons, List.countP_append,
      countP_map_emit_zero Action.isAcq (fun _ => rfl), Action.isAcq]

lemma countP_isRel_runActions (dir : String) (cmds : List String) (b : TaskBehavior) :
    (runActions dir cmds b).countP Action.isRel = 1 := by
  cases b <;>
    simp [runActions, bodyActions, List.countP_cons, List.countP_append,
      countP_map_emit_zero Action.isRel (fun _ => rfl), Action.isRel]

lemma getLast?_runActions (dir : String) (cmds : List String) (b : TaskBehavior) :
    (runActions dir cmds b).getLast? = some Action.release := by
  have hsplit : runActions dir cmds b
      = (Action.acquire :: Action.emit (Line.startBanner dir)
          :: Action.spawn (spawnSpecOf dir cmds) :: bodyActions dir b)
        ++ [Action.release] := by
    simp [runActions]
  rw [hsplit, List.getLast?_concat]

/-- A task that has run its whole program holds no channel slot. -/
lemma heldBy_terminal (dir : String) (cmds : List String) (b : TaskBehavior) :
    heldBy (runActions dir cmds b, (runActions dir cmds b).length) = 0 := by
  unfold heldBy
  rw [List.take_length, countP_isAcq_runActions, countP_isRel_runActions]

/-- Counting completion-type lines in a task's log, for any predicate that
holds of the task's completion banner and of no other line it can print. -/
lemma countP_runLog (dir : String) (cmds : List String) (b : TaskBehavior)
    (p : Line → Bool)
    (hS : p (Line.startBanner dir) = false)
    (hT : ∀ l, p (Line.tagged dir l) = false)
    (hF : ∀ m, p (Line.startFailLine dir m) = false)
    (hE : ∀ m, p (Line.runErrLine dir m) = false)
    (hC : p (Line.completionBanner dir) = true) :
    (runLog dir cmds b).countP p = if b.starts then 1 else 0 := by
  cases b <;>
    simp [runLog_eq, TaskBehavior.starts, List.countP_cons, List.countP_append,
      countP_map_tagged_eq_zero dir p hT, hS, hF, hE, hC]

lemma runErrLine_render_ne_startFailLine_render (d m1 m2 : String) :
    (Line.runErrLine d m1).render ≠ (Line.startFailLine d m2).render := by
  intro h
  simp only [Line.render] at h
  have hd := congrArg String.data h
  simp only [String.data_append] at hd
  simp [List.append_assoc] at hd

/-- Two parser states agreeing on the current group and on group `g` keep
agreeing on both after scanning any line (a line can touch `g` only by
resetting it at a `[g]` header or appending to it while `g` is current). -/
lemma parseStep_agree (g : String) (raw : String) (s1 s2 : PState)
    (hcg : s1.currentGroup = s2.currentGroup) (hlk : s1.groups g = s2.groups g) :
    (parseStep s1 raw).currentGroup = (parseStep s2 raw).currentGroup
    ∧ (parseStep s1 raw).groups g = (parseStep s2 raw).groups g := by
  unfold parseStep
  by_cases h1 : goTrimSpace raw = "" ∨ strHasPre (goTrimSpace raw) "#" = true
  · rw [if_pos h1, if_pos h1]
    exact ⟨hcg, hlk⟩
  · rw [if_neg h1, if_neg h1]
    by_cases h2 : strHasPre (goTrimSpace raw) "[" = true
        ∧ strHasSuf (goTrimSpace raw) "]" = true
    · rw [if_pos h2, if_pos h2]
      by_cases h3 : goTrimBrackets (goTrimSpace raw) = "settings"
      · rw [if_pos h3, if_pos h3]
        exact ⟨rfl, hlk⟩
      · rw [if_neg h3, if_neg h3]
        refine ⟨rfl, ?_⟩
        simp only [setFun]
        by_cases h4 : g = goTrimBrackets (goTrimSpace raw)
        · rw [if_pos h4, if_pos h4]
        · rw [if_neg h4, if_neg h4]; exact hlk
    · rw [if_neg h2, if_neg h2]
      by_cases h5 : s1.currentGroup = "settings"
      · have h5x : s2.currentGroup = "settings" := by rw [← hcg]; exact h5
        rw [if_pos h5, if_pos h5x]
        cases hsp : splitFirstEq (goTrimSpace raw).data with
        | none => exact ⟨hcg, hlk⟩
        | some kv => exact ⟨hcg, hlk⟩
      · have h5x : ¬s2.currentGroup = "settings" := by rw [← hcg]; exact h5
        rw [if_neg h5, if_neg h5x]
        by_cases h6 : s1.currentGroup = ""
        · have h6x : s2.currentGroup = "" := by rw [← hcg]; exact h6
          rw [if_pos h6, if_pos h6x]
          exact ⟨hcg, hlk⟩
        · have h6x : ¬s2.currentGroup = "" := by rw [← hcg]; exact h6
          rw [if_neg h6, if_neg h6x]
          refine ⟨hcg, ?_⟩
          simp only [setFun]
          rw [hcg]
          by_cases h7 : g = s2.currentGroup
          · rw [if_pos h7, if_pos h7, ← h7, hlk]
          · rw [if_neg h7, if_neg h7]; exact hlk

/-- Agreement on the current group and on group `g` is preserved by scanning
any list of lines. -/
lemma foldl_parseStep_agree (g : String) (ls : List String) :
    ∀ s1 s2 : PState, s1.currentGroup = s2.currentGroup →
      s1.groups g = s2.groups g →
      (ls.foldl parseStep s1).currentGroup = (ls.foldl parseStep s2).currentGroup
      ∧ (ls.foldl parseStep s1).groups g = (ls.foldl parseStep s2).groups g := by
  induction ls with
  | nil => exact fun s1 s2 hcg hlk => ⟨hcg, hlk⟩
  | cons x xs ih =>
    intro s1 s2 hcg hlk
    have h := parseStep_agree g x s1 s2 hcg hlk
    exact ih _ _ h.1 h.2

/-- Scanning a header line `[g]` (with `g ≠ settings`) from any state makes
`g` the current group and resets group `g` to the empty list — lines 41–47
of `parseConfig`. -/
lemma parseStep_header (s : PState) (L g : String) (hg : g ≠ "settings")
    (h0 : ¬(goTrimSpace L = "" ∨ strHasPre (goTrimSpace L) "#" = true))
    (h1 : strHasPre (goTrimSpace L) "[" = true)
    (h2 : strHasSuf (goTrimSpace L) "]" = true)
    (h3 : goTrimBrackets (goTrimSpace L) = g) :
    (parseStep s L).currentGroup = g ∧ (parseStep s L).groups g = some [] := by
  unfold parseStep
  rw [if_neg h0, if_pos ⟨h1, h2⟩, h3, if_neg hg]
  exact ⟨rfl, by simp [setFun]⟩

lemma goLinesAux_no_newline (xs : List Char) (h : ∀ c ∈ xs, c ≠ '\n') :
    ∀ acc : List Char, goLinesAux xs acc = [acc.reverse ++ xs] := by
  induction xs with
  | nil => intro acc; simp [goLinesAux]
  | cons c rest ih =>
    intro acc
    rw [goLinesAux, if_neg (by simpa using h c (by simp))]
    rw [ih (fun d hd => h d (by simp [hd])) (c :: acc)]
    simp

lemma goLinesAux_split (xs rest : List Char) (h : ∀ c ∈ xs, c ≠ '\n') :
    ∀ acc : List Char,
      goLinesAux (xs ++ '\n' :: rest) acc = (acc.reverse ++ xs) :: goLinesAux rest [] := by
  induction xs with
  | nil => intro acc; simp [goLinesAux]
  | cons c cs ih =>
    intro acc
    rw [List.cons_append, goLinesAux, if_neg (by simpa using h c (by simp))]
    rw [ih (fun d hd => h d (by simp [hd])) (c :: acc)]
    simp

/-- Joining newline-free lines with `"\n"` and splitting the text back into
lines is the identity: the scanner sees exactly the joined lines. -/
lemma goLines_goJoin (ls : List String) (hne : ls ≠ [])
    (h : ∀ l ∈ ls, ∀ c ∈ l.data, c ≠ '\n') :
    goLines (goJoin "\n" ls) = ls := by
  induction ls with
  | nil => exact absurd rfl hne
  | cons x xs ih =>
    cases xs with
    | nil =>
      show goLines (goJoin "\n" [x]) = [x]
      rw [goJoin, goLines, goLinesAux_no_newline x.data (h x (by simp)) []]
      simp only [List.reverse_nil, List.nil_append, List.map_cons, List.map_nil]
      rw [List.cons.injEq]
      exact ⟨String.asString_toList x, rfl⟩
    | cons y ys =>
      rw [goJoin, goLines]
      have hdata : (x ++ "\n" ++ goJoin "\n" (y :: ys)).data
          = x.data ++ '\n' :: (goJoin "\n" (y :: ys)).data := by
        simp [String.data_append]
      rw [hdata, goLinesAux_split x.data (goJoin "\n" (y :: ys)).data (h x (by simp)) []]
      have hrest : goLines (goJoin "\n" (y :: ys)) = y :: ys :=
        ih (by simp) (fun l hl => h l (by simp [hl]))
      rw [goLines] at hrest
      simp only [List.map_cons, List.reverse_nil, List.nil_append, hrest]
      rw [List.cons.injEq]
      exact ⟨String.asString_toList x, rfl⟩

/-! ## Claim theorems -/

/-- C4: for every resolved configuration, a missing, non-numeric (by Go's
`strconv.Atoi`), zero, or negative `concurrency` setting yields the effective
ceiling 3, and a setting parsing to a positive integer `n` yields `n`. -/
theorem concurrency_default_and_override (settings : String → Option String) :
    (settings "concurrency" = none → resolveConcurrency settings = 3)
    ∧ (∀ v, settings "concurrency" = some v → goAtoi v = none →
        resolveConcurrency settings = 3)
    ∧ (∀ v n, settings "concurrency" = some v → goAtoi v = some n → n ≤ 0 →
        resolveConcurrency settings = 3)
    ∧ (∀ v n, settings "concurrency" = some v → goAtoi v = some n → 0 < n →
        resolveConcurrency settings = n) := by
  refine ⟨fun h => ?_, fun v hv hg => ?_, fun v n hv hg hn => ?_, fun v n hv hg hn => ?_⟩ <;>
    simp [resolveConcurrency, *]

theorem concurrency_default_and_override_witness :
    resolveConcurrency (fun _ => none) = 3
    ∧ resolveConcurrency (fun k => if k = "concurrency" then some "abc" else none) = 3
    ∧ resolveConcurrency (fun k => if k = "concurrency" then some "0" else none) = 3
    ∧ resolveConcurrency (fun k => if k = "concurrency" then some "-2" else none) = 3
    ∧ resolveConcurrency (fun k => if k = "concurrency" then some "5" else none) = 5 :=
  ⟨(concurrency_default_and_override _).1 rfl,
   (concurrency_default_and_override _).2.1 "abc" (by decide) (by decide),
   (concurrency_default_and_override _).2.2.1 "0" 0 (by decide) (by decide) (by decide),
   (concurrency_default_and_override _).2.2.1 "-2" (-2) (by decide) (by decide) (by decide),
   (concurrency_default_and_override _).2.2.2 "5" 5 (by decide) (by decide) (by decide)⟩

/-- C5: merging takes an override group wholesale, keeps base-only settings,
and takes the override's value for settings present in both (the model's
`mergeConfig` builds fresh maps from copies, so the base is untouched). -/
theorem merge_override_wins (base override : Config) (g k : String) :
    (∀ cmds, override.Groups g = some cmds →
        (mergeConfig base override).Groups g = some cmds)
    ∧ (override.Groups g = none →
        (mergeConfig base override).Groups g = base.Groups g)
    ∧ (∀ v, override.Settings k = some v →
        (mergeConfig base override).Settings k = some v)
    ∧ (override.Settings k = none →
        (mergeConfig base override).Settings k = base.Settings k) := by
  refine ⟨fun cmds h => ?_, fun h => ?_, fun v h => ?_, fun h => ?_⟩ <;>
    simp [mergeConfig, h]

theorem merge_override_wins_witness :
    (mergeConfig mergeBaseEx mergeOverrideEx).Groups "g" = some ["x"]
    ∧ (mergeConfig mergeBaseEx mergeOverrideEx).Settings "keep" = some "1"
    ∧ (mergeConfig mergeBaseEx mergeOverrideEx).Settings "both" = some "9" :=
  ⟨(merge_override_wins mergeBaseEx mergeOverrideEx "g" "keep").1 ["x"] (by decide),
   (merge_override_wins mergeBaseEx mergeOverrideEx "g" "keep").2.2.2 (by decide) |>.trans
     (by decide),
   (merge_override_wins mergeBaseEx mergeOverrideEx "g" "both").2.2.1 "9" (by decide)⟩

/-- C7: when the requested group is absent from the merged configuration,
`main` prints the not-found message (which names the group) and returns
before dispatching any task. -/
theorem missing_group_aborts_early (argv : List String) (p group d1 : String)
    (ds : List String) (hargv : argv = p :: group :: d1 :: ds)
    (embeddedText : String) (externalText : Option String)
    (behave : String → TaskBehavior)
    (hmiss : (resolvedConfig embeddedText externalText).Groups group = none) :
    mainRun argv embeddedText externalText behave
        = .groupMissing ("未找到组 [" ++ group ++ "] 的命令，请检查配置")
    ∧ (mainRun argv embeddedText externalText behave).dispatched = 0
    ∧ (∃ a b : String,
        "未找到组 [" ++ group ++ "] 的命令，请检查配置" = a ++ group ++ b) := by
  subst hargv
  refine ⟨?_, ?_, "未找到组 [", "] 的命令，请检查配置", rfl⟩ <;>
    simp [mainRun, hmiss, MainRes.dispatched]

theorem missing_group_aborts_early_witness :
    mainRun ["runCmd", "build", "/tmp/a"] "" none (fun _ => TaskBehavior.runOk [])
        = MainRes.groupMissing ("未找到组 [" ++ "build" ++ "] 的命令，请检查配置")
    ∧ (mainRun ["runCmd", "build", "/tmp/a"] "" none
        (fun _ => TaskBehavior.runOk [])).dispatched = 0
    ∧ (∃ a b : String,
        "未找到组 [" ++ "build" ++ "] 的命令，请检查配置" = a ++ "build" ++ b) :=
  missing_group_aborts_early _ "runCmd" "build" "/tmp/a" [] rfl "" none
    (fun _ => TaskBehavior.runOk []) (by decide)

/-- C8: each task issues exactly one process invocation, a single shell run
`sh -c <script>` whose script is the group's commands joined by newlines and
whose working directory is the target path. -/
theorem single_shell_invocation_per_task (dir : String) (cmds : List String)
    (b : TaskBehavior) :
    (runActions dir cmds b).filterMap Action.spawned = [spawnSpecOf dir cmds]
    ∧ spawnSpecOf dir cmds
        = { prog := "sh", args := ["-c", goJoin "\n" cmds], workDir := dir } := by
  refine ⟨?_, rfl⟩
  cases b <;>
    simp [runActions, bodyActions, Action.spawned, List.filterMap_cons,
      List.filterMap_append, filterMap_spawned_map_tagged]

/-- C9: with fewer than three entries in `os.Args` (program name, group, and
at least one directory), `main` prints the usage line and returns cleanly
with no task dispatched. -/
theorem too_few_args_prints_usage (argv : List String) (h : argv.length < 3)
    (embeddedText : String) (externalText : Option String)
    (behave : String → TaskBehavior) :
    mainRun argv embeddedText externalText behave
        = .usage "用法: ./runCmd <group> <dir1> <dir2> ..."
    ∧ (mainRun argv embeddedText externalText behave).dispatched = 0
    ∧ (mainRun argv embeddedText externalText behave).exitCode = 0 := by
  match argv with
  | [] => exact ⟨rfl, rfl, rfl⟩
  | [_] => exact ⟨rfl, rfl, rfl⟩
  | [_, _] => exact ⟨rfl, rfl, rfl⟩
  | _ :: _ :: _ :: _ => simp at h; omega

/-- C1: for any ceiling `C ≥ 1` and any target directories, in every state
the engine can reach, at most `C` tasks simultaneously hold a slot of the
`worker` channel. -/
theorem engine_holds_at_most_ceiling (C : Nat) (hC : 1 ≤ C) (cmds : List String)
    (dirs : List String) (behave : String → TaskBehavior) (s : List TaskSt)
    (hr : EngReach C (dirs.map (fun d => runActions d cmds (behave d))) s) :
    heldCount s ≤ C :=
  engine_occupancy_bounded hr

theorem engine_holds_at_most_ceiling_witness :
    heldCount ((["a", "b"].map (fun d => runActions d ["ls"]
        ((fun _ => TaskBehavior.runOk []) d))).map (fun p => (p, 0))) ≤ 1 :=
  engine_holds_at_most_ceiling 1 (by decide) ["ls"] ["a", "b"]
    (fun _ => TaskBehavior.runOk []) _ EngReach.init

/-- C3: on every exit path — clean completion, start failure, runtime
failure — a task's program contains exactly one slot release; it is the very
last action before the task terminates; a finished task holds no slot; and
a system in which every dispatched task has finished holds zero slots, so
slots are never leaked. -/
theorem slot_released_exactly_once :
    (∀ (dir : String) (cmds : List String) (b : TaskBehavior),
        (runActions dir cmds b).countP Action.isRel = 1
        ∧ (runActions dir cmds b).getLast? = some Action.release
        ∧ heldBy (runActions dir cmds b, (runActions dir cmds b).length) = 0)
    ∧ (∀ tasks : List (String × List String × TaskBehavior),
        heldCount (tasks.map (fun t =>
          (runActions t.1 t.2.1 t.2.2, (runActions t.1 t.2.1 t.2.2).length))) = 0) := by
  refine ⟨fun dir cmds b =>
    ⟨countP_isRel_runActions dir cmds b, getLast?_runActions dir cmds b,
      heldBy_terminal dir cmds b⟩, ?_⟩
  intro tasks
  induction tasks with
  | nil => rfl
  | cons t ts ih => rw [List.map_cons, heldCount_cons, heldBy_terminal, ih]

/-- C2 as stated is false on the code: a directory whose task fails at
start gets no completion banner.  With one target directory whose spawn
fails, the engine emits zero completion banner lines for it instead of the
one line the claim requires — `runCmdsInDir` returns at line 109 before the
banner at line 121. -/
theorem start_failure_omits_completion_banner :
    ((runLog "/tmp/a" ["true"]
        (TaskBehavior.startFail "fork/exec /bin/sh: no such file or directory")).countP
      (Line.isCompletionFor "/tmp/a")) = 0 := by decide

/-- C2 amended: each directory whose task's process starts (clean completion
or runtime failure) gets exactly one completion banner, and a start-failed
task gets none, so the engine emits one completion banner per started
directory; the banner's text contains the directory's path. -/
theorem completion_banners_count_started :
    (∀ (dir : String) (cmds : List String) (b : TaskBehavior),
        (runLog dir cmds b).countP (Line.isCompletionFor dir)
          = if b.starts then 1 else 0)
    ∧ (∀ (dirs cmds : List String) (behave : String → TaskBehavior),
        ((dirs.map (fun d => (runLog d cmds (behave d)).countP Line.isCompletion)).sum
          = (dirs.filter (fun d => (behave d).starts)).length))
    ∧ (∀ dir : String, ∃ a b : String,
        (Line.completionBanner dir).render = a ++ dir ++ b) := by
  have perTask : ∀ (dir : String) (cmds : List String) (b : TaskBehavior),
      (runLog dir cmds b).countP Line.isCompletion = if b.starts then 1 else 0 :=
    fun dir cmds b =>
      countP_runLog dir cmds b Line.isCompletion rfl (fun _ => rfl) (fun _ => rfl)
        (fun _ => rfl) rfl
  refine ⟨?_, ?_, ?_⟩
  · intro dir cmds b
    refine countP_runLog dir cmds b (Line.isCompletionFor dir) rfl (fun _ => rfl)
      (fun _ => rfl) (fun _ => rfl) ?_
    simp [Line.isCompletionFor]
  · intro dirs cmds behave
    have hsum : ∀ ds : List String,
        (ds.map (fun d => if (behave d).starts then 1 else 0)).sum
          = (ds.filter (fun d => (behave d).starts)).length := by
      intro ds
      induction ds with
      | nil => rfl
      | cons d ds ih =>
        by_cases hd : (behave d).starts <;>
          simp [List.filter_cons, hd, ih] <;> omega
    simp only [perTask]
    exact hsum dirs
  · intro dir
    exact ⟨"<<< 完成目录 [", "] 的命令执行\n\n", rfl⟩

/-- C6: with a found group, `main` completes for every assignment of child
behaviours, producing one log per directory computed from that directory's
behaviour alone (so no failure aborts a sibling), exiting with status 0
regardless of failures; and a runtime failure's log line is distinct — both
as an event and as printed text — from a start failure's. -/
theorem per_directory_failures_contained (argv : List String) (p group d1 : String)
    (ds : List String) (hargv : argv = p :: group :: d1 :: ds)
    (embeddedText : String) (externalText : Option String)
    (behave : String → TaskBehavior) (cmds : List String)
    (hfound : (resolvedConfig embeddedText externalText).Groups group = some cmds) :
    mainRun argv embeddedText externalText behave
        = .completed (resolveConcurrency (resolvedConfig embeddedText externalText).Settings)
            ((d1 :: ds).map (fun d => runLog d cmds (behave d)))
    ∧ (mainRun argv embeddedText externalText behave).exitCode = 0
    ∧ (∀ d out msg, behave d = .runErr out msg →
        Line.runErrLine d msg ∈ runLog d cmds (behave d))
    ∧ (∀ d m1 m2, Line.runErrLine d m1 ≠ Line.startFailLine d m2)
    ∧ (∀ d m1 m2, (Line.runErrLine d m1).render ≠ (Line.startFailLine d m2).render) := by
  subst hargv
  refine ⟨?_, ?_, ?_, ?_, ?_⟩
  · simp [mainRun, hfound]
  · simp [mainRun, hfound, MainRes.exitCode]
  · intro d out msg hb
    rw [hb]
    simp [runLog_eq]
  · exact fun d m1 m2 h => Line.noConfusion h
  · exact fun d m1 m2 => runErrLine_render_ne_startFailLine_render d m1 m2

theorem per_directory_failures_contained_witness :
    mainRun ["runCmd", "build", "/tmp/a"] "[build]\nmake" none
        (fun _ => TaskBehavior.runErr ["o"] "exit status 1")
        = MainRes.completed
            (resolveConcurrency (resolvedConfig "[build]\nmake" none).Settings)
            (["/tmp/a"].map (fun d => runLog d ["make"]
              ((fun _ => TaskBehavior.runErr ["o"] "exit status 1") d)))
    ∧ (mainRun ["runCmd", "build", "/tmp/a"] "[build]\nmake" none
        (fun _ => TaskBehavior.runErr ["o"] "exit status 1")).exitCode = 0
    ∧ (∀ d out msg,
        (fun _ => TaskBehavior.runErr ["o"] "exit status 1") d
            = TaskBehavior.runErr out msg →
        Line.runErrLine d msg ∈ runLog d ["make"]
          ((fun _ => TaskBehavior.runErr ["o"] "exit status 1") d))
    ∧ (∀ d m1 m2, Line.runErrLine d m1 ≠ Line.startFailLine d m2)
    ∧ (∀ d m1 m2, (Line.runErrLine d m1).render ≠ (Line.startFailLine d m2).render) :=
  per_directory_failures_contained ["runCmd", "build", "/tmp/a"] "runCmd" "build"
    "/tmp/a" [] rfl "[build]\nmake" none
    (fun _ => TaskBehavior.runErr ["o"] "exit status 1") ["make"] (by decide)

theorem too_few_args_prints_usage_witness :
    mainRun ["runCmd", "build"] "" none (fun _ => TaskBehavior.runOk [])
        = MainRes.usage "用法: ./runCmd <group> <dir1> <dir2> ..."
    ∧ (mainRun ["runCmd", "build"] "" none
        (fun _ => TaskBehavior.runOk [])).dispatched = 0
    ∧ (mainRun ["runCmd", "build"] "" none
        (fun _ => TaskBehavior.runOk [])).exitCode = 0 :=
  too_few_args_prints_usage ["runCmd", "build"] (by decide) "" none
    (fun _ => TaskBehavior.runOk [])

/-- C10: in a configuration text in which the group header line `[g]`
appears again, `parseConfig` resets group `g` to the empty list at the
repeated header, so the parsed group holds exactly the command lines that
follow the last occurrence of the header: the whole text before that header
is irrelevant to group `g`. -/
theorem duplicate_header_resets_group (g L : String) (hg : g ≠ "settings")
    (h0 : ¬(goTrimSpace L = "" ∨ strHasPre (goTrimSpace L) "#" = true))
    (h1 : strHasPre (goTrimSpace L) "[" = true)
    (h2 : strHasSuf (goTrimSpace L) "]" = true)
    (h3 : goTrimBrackets (goTrimSpace L) = g)
    (ls1 ls2 : List String)
    (hnl : ∀ l ∈ ls1 ++ L :: ls2, ∀ c ∈ l.data, c ≠ '\n') :
    (parseConfig (goJoin "\n" (ls1 ++ L :: ls2))).Groups g
      = (parseConfig (goJoin "\n" (L :: ls2))).Groups g
    ∧ (parseConfig (goJoin "\n" (ls1 ++ [L]))).Groups g = some [] := by
  have hnl1 : ∀ l ∈ L :: ls2, ∀ c ∈ l.data, c ≠ '\n' :=
    fun l hl => hnl l (List.mem_append_right ls1 hl)
  have hnl2 : ∀ l ∈ ls1 ++ [L], ∀ c ∈ l.data, c ≠ '\n' := by
    intro l hl
    rcases List.mem_append.mp hl with hl1 | hl1
    · exact hnl l (List.mem_append_left _ hl1)
    · exact hnl l (List.mem_append_right ls1 (by simp at hl1; simp [hl1]))
  have pc : ∀ c : String, (parseConfig c).Groups = (parseLinesL (goLines c)).groups :=
    fun c => rfl
  rw [pc, pc, pc, goLines_goJoin _ (by simp) hnl, goLines_goJoin _ (by simp) hnl1,
    goLines_goJoin _ (by simp) hnl2]
  have hH1 := parseStep_header
    (ls1.foldl parseStep ⟨fun _ => none, fun _ => none, ""⟩) L g hg h0 h1 h2 h3
  have hH2 := parseStep_header
    (⟨fun _ => none, fun _ => none, ""⟩ : PState) L g hg h0 h1 h2 h3
  constructor
  · rw [parseLinesL, parseLinesL, List.foldl_append, List.foldl_cons, List.foldl_cons]
    exact (foldl_parseStep_agree g ls2 _ _ (hH1.1.trans hH2.1.symm)
      (hH1.2.trans hH2.2.symm)).2
  · rw [parseLinesL, List.foldl_append, List.foldl_cons, List.foldl_nil]
    exact hH1.2

theorem duplicate_header_resets_group_witness :
    (parseConfig (goJoin "\n" (["[g]", "a"] ++ "[g]" :: ["x"]))).Groups "g"
      = (parseConfig (goJoin "\n" ("[g]" :: ["x"]))).Groups "g"
    ∧ (parseConfig (goJoin "\n" (["[g]", "a"] ++ ["[g]"]))).Groups "g" = some [] :=
  duplicate_header_resets_group "g" "[g]" (by decide) (by decide) (by decide)
    (by decide) (by decide) ["[g]", "a"] ["x"] (by decide)

end RunCmd
